import Mathlib

/-!
Verification of the Shiksha Setu frontend logic: the client-side fuzzy
filter engine used by the admin manuals page, the stat counters of that
page, the principal dashboard's approval-rate display, and the PDF
file-selection handler.

Text is modelled as a list of characters; records are association lists
from field names to loosely typed values, mirroring the JavaScript
objects probed by name.
-/

/-- Text: a string as a list of characters. -/
abbrev Str := List Char

/-- A loosely typed JavaScript-style field value: text, a number, a
boolean, or null/undefined (absent). -/
inductive Value where
  | text (s : Str)
  | num (n : Int)
  | boolV (b : Bool)
  | absent
deriving DecidableEq

/-- A record is an opaque mapping from field name to value, modelled as
an association list. -/
abbrev SRecord := List (Str × Value)

/-- ASCII whitespace test used for whitespace collapsing. -/
def isWs (c : Char) : Bool :=
  c = ' ' || c = '\t' || c = '\n' || c = '\r'

/-- Collapse whitespace: split on whitespace runs, drop empty pieces and
rejoin with single spaces (this also trims leading/trailing whitespace). -/
def collapseWs (s : Str) : Str :=
  List.intercalate [' '] ((s.splitOnP isWs).filter (fun w => w ≠ []))

/-- Modelled from the spec: the `fuzzySearch` utility imported by
`AdminManualsPage.jsx` is not part of the supplied sources, so its text
normalisation is taken from the spec: lowercase, then collapse
whitespace (which trims). Applied to both the query and field text. -/
def normalizeText (s : Str) : Str :=
  collapseWs (s.map Char.toLower)

/-- Levenshtein edit distance, structurally recursive on a fuel bound
so that it reduces inside the kernel; `fuel = xs.length + ys.length`
always suffices since every recursive call shortens at least one list. -/
def levFuel : Nat → Str → Str → Nat
  | _, [], ys => ys.length
  | _, xs, [] => xs.length
  | 0, xs, ys => xs.length + ys.length
  | fuel + 1, x :: xs, y :: ys =>
    if x = y then levFuel fuel xs ys
    else 1 + min (levFuel fuel xs ys)
              (min (levFuel fuel (x :: xs) ys) (levFuel fuel xs (y :: ys)))

/-- Levenshtein edit distance between two character lists. -/
def lev (xs ys : Str) : Nat :=
  levFuel (xs.length + ys.length) xs ys

/-- Substring containment test: is `nq` a contiguous infix of `nf`? -/
def isSub (nq nf : Str) : Bool :=
  nf.tails.any (fun t => nq.isPrefixOf t)

/-- Modelled from the spec: similarity score of a normalised non-empty
query against normalised non-empty field text.  Substring containment
yields a high score scaled by the query/field length ratio, namely
`(1 + |q| / |f|) / 2` written as the single fraction
`(|f| + |q|) / (2 |f|)`; otherwise fall back to the Levenshtein
distance normalised by the longer length, `1 - lev / maxLen` written as
`(maxLen - lev) / maxLen` (the truncated `Nat` subtraction clamps the
fallback at 0, keeping the score inside the unit interval). -/
def similarity (nq nf : Str) : ℚ :=
  if isSub nq nf then
    Rat.divInt (nf.length + nq.length) (2 * nf.length)
  else
    Rat.divInt (max nq.length nf.length - lev nq nf) (max nq.length nf.length)

/-- Extract the text of a record field: non-text values (numbers,
booleans, null/absent) and missing fields yield the empty text. -/
def getFieldText (r : SRecord) (f : Str) : Str :=
  match r.lookup f with
  | some (Value.text s) => s
  | _ => []

/-- Whether the looked-up value of a field is text-typed. -/
def isTextValue : Option Value → Bool
  | some (Value.text _) => true
  | _ => false

/-- Modelled from the spec: per-field score — a field whose normalised
text is empty (absent, null, non-text or whitespace-only) contributes
score 0; otherwise the similarity of the normalised query against the
normalised field text. -/
def fieldScore (nq : Str) (r : SRecord) (f : Str) : ℚ :=
  if normalizeText (getFieldText r f) = [] then 0
  else similarity nq (normalizeText (getFieldText r f))

/-- Modelled from the spec: a record's overall score is the maximum of
its per-field scores over the selected fields (0 when no field scores
positively). -/
def recordScore (nq : Str) (fields : List Str) (r : SRecord) : ℚ :=
  ((fields.map (fieldScore nq r)).foldr max 0)

/-- A ranked entry: input position, the record, and its overall score. -/
abbrev RankEntry := Nat × SRecord × ℚ

/-- Ranking order on entries: higher score first; on equal scores the
smaller input position first (this makes the sort stable). -/
def rankRel (a b : RankEntry) : Prop :=
  b.2.2 < a.2.2 ∨ (a.2.2 = b.2.2 ∧ a.1 ≤ b.1)

instance : DecidableRel rankRel := fun a b => by
  unfold rankRel; infer_instance

instance : IsTotal RankEntry rankRel := by
  constructor
  intro a b
  rcases lt_trichotomy a.2.2 b.2.2 with h | h | h
  · exact Or.inr (Or.inl h)
  · rcases Nat.le_total a.1 b.1 with h2 | h2
    · exact Or.inl (Or.inr ⟨h, h2⟩)
    · exact Or.inr (Or.inr ⟨h.symm, h2⟩)
  · exact Or.inl (Or.inl h)

instance : IsTrans RankEntry rankRel := by
  constructor
  intro a b c hab hbc
  rcases hab with h1 | ⟨he1, hi1⟩
  · rcases hbc with h2 | ⟨he2, _⟩
    · exact Or.inl (h2.trans h1)
    · exact Or.inl (he2 ▸ h1)
  · rcases hbc with h2 | ⟨he2, hi2⟩
    · exact Or.inl (he1 ▸ h2)
    · exact Or.inr ⟨he1.trans he2, hi1.trans hi2⟩

/-- Every record tagged with its input position and overall score. -/
def scoredEntries (records : List SRecord) (nq : Str) (fields : List Str) :
    List RankEntry :=
  records.enum.map (fun p => (p.1, p.2, recordScore nq fields p.2))

/-- Modelled from the spec: score every record (tagged with its input
position), keep those whose overall score reaches the threshold, and
stable-sort by descending score (ties broken by input position). -/
def fuzzyRanked (records : List SRecord) (query : Str) (fields : List Str)
    (threshold : ℚ) : List RankEntry :=
  List.insertionSort rankRel
    ((scoredEntries records (normalizeText query) fields).filter
      (fun e => threshold ≤ e.2.2))

/-- Modelled from the spec: the fuzzy filter engine `fuzzySearch`
(imported from utils, not part of the supplied sources).  An empty
(after trimming) query is a no-op returning the input unchanged;
otherwise the ranked pipeline's records are returned. -/
def fuzzySearch (records : List SRecord) (query : Str) (fields : List Str)
    (threshold : ℚ) : List SRecord :=
  if normalizeText query = [] then records
  else (fuzzyRanked records query fields threshold).map (fun e => e.2.1)

/-! Models of the code under `src/` -/

/-- A manual as seen by `AdminManualsPage.jsx`: `indexed` is the
truthiness of `m.indexed`, `total_pages` is `none` when `m.total_pages`
is missing/null (JavaScript `m.total_pages || 0` also maps a numeric 0
to 0, which `Option.getD 0` reproduces for `some 0`). -/
structure Manual where
  indexed : Bool
  total_pages : Option Nat
deriving DecidableEq

/-- `stats.total` of `AdminManualsPage.jsx`: `manuals.length`. -/
def statsTotal (manuals : List Manual) : Nat :=
  manuals.length

/-- `stats.indexed`: `manuals.filter((m) => m.indexed).length`. -/
def statsIndexed (manuals : List Manual) : Nat :=
  (manuals.filter (fun m => m.indexed)).length

/-- `stats.pending`: `manuals.filter((m) => !m.indexed).length`. -/
def statsPending (manuals : List Manual) : Nat :=
  (manuals.filter (fun m => !m.indexed)).length

/-- `stats.totalPages`: `manuals.reduce((sum, m) => sum + (m.total_pages || 0), 0)`. -/
def statsTotalPages (manuals : List Manual) : Nat :=
  manuals.foldl (fun sum m => sum + m.total_pages.getD 0) 0

/-- The dashboard payload fields used by the approval-rate display of
`PrincipalDashboard.jsx`. -/
structure DashboardData where
  approved_modules : Nat
  total_modules : Nat
deriving DecidableEq

/-- JavaScript `Math.round`: round half toward positive infinity,
i.e. the floor of `x + 1/2`. -/
def jsRound (x : ℚ) : Int :=
  Int.floor (x + 1 / 2)

/-- The Approval Rate cell of `PrincipalDashboard.jsx`:
`dashboard.total_modules > 0 ? Math.round((dashboard.approved_modules / dashboard.total_modules) * 100) : 0`. -/
def approvalRate (d : DashboardData) : Int :=
  if 0 < d.total_modules then
    jsRound ((d.approved_modules : ℚ) / (d.total_modules : ℚ) * 100)
  else 0

/-- A browser File as used by `handleFileSelect`: its name and MIME type. -/
structure UpFile where
  name : Str
  type : Str
deriving DecidableEq

/-- An alert payload: `{ type, message }`. -/
structure AlertMsg where
  kind : Str
  message : Str
deriving DecidableEq

/-- The component state touched by `handleFileSelect`. -/
structure PageState where
  selectedFile : Option UpFile
  uploadTitle : Str
  alert : Option AlertMsg
deriving DecidableEq

/-- The MIME type accepted by `handleFileSelect`. -/
def appPdf : Str := String.toList "application/pdf"

/-- The error alert raised for a non-PDF selection. -/
def pdfError : AlertMsg :=
  { kind := String.toList "error",
    message := String.toList "Please select a valid PDF file" }

/-- JavaScript `s.replace(pat, '')` for a non-empty plain-string
pattern: remove the first occurrence of `pat`, leave `s` unchanged when
`pat` does not occur. -/
def replaceFirst (pat : Str) : Str → Str
  | [] => []
  | c :: cs =>
    if pat.isPrefixOf (c :: cs) then (c :: cs).drop pat.length
    else c :: replaceFirst pat cs

/-- `handleFileSelect` of `AdminManualsPage.jsx`: accept the file iff
one is present and its MIME type is exactly `application/pdf`; on
accept store it and, when the title is empty (falsy), set the title to
`file.name.replace(".pdf", "")`; otherwise raise the error alert. -/
def handleFileSelect (st : PageState) (file : Option UpFile) : PageState :=
  match file with
  | some f =>
    if f.type = appPdf then
      { st with
        selectedFile := some f,
        uploadTitle :=
          if st.uploadTitle = [] then replaceFirst (String.toList ".pdf") f.name
          else st.uploadTitle }
    else { st with alert := some pdfError }
  | none => { st with alert := some pdfError }

/-- Written from the claim's words, for comparison with the code's
`replaceFirst`: the filename with a trailing `.pdf` suffix removed. -/
def removePdfSuffix (s : Str) : Str :=
  if (String.toList ".pdf").isSuffixOf s then s.take (s.length - 4) else s

/-! Supporting lemmas -/

theorem scoredEntries_proj (records : List SRecord) (nq : Str) (fields : List Str) :
    (scoredEntries records nq fields).map (fun e => e.2.1) = records := by
  unfold scoredEntries
  rw [List.map_map]
  exact List.enum_map_snd records

theorem mem_scoredEntries {records : List SRecord} {nq : Str} {fields : List Str}
    {e : RankEntry} (he : e ∈ scoredEntries records nq fields) :
    e.2.1 ∈ records ∧ e.2.2 = recordScore nq fields e.2.1 := by
  unfold scoredEntries at he
  obtain ⟨p, hp, rfl⟩ := List.mem_map.1 he
  refine ⟨?_, rfl⟩
  have := List.mem_map_of_mem Prod.snd hp
  rwa [List.enum_map_snd] at this

theorem mem_fuzzySearch_iff {records : List SRecord} {q : Str} {fields : List Str}
    {t : ℚ} (hq : normalizeText q ≠ []) (r : SRecord) :
    r ∈ fuzzySearch records q fields t ↔
      r ∈ records ∧ t ≤ recordScore (normalizeText q) fields r := by
  unfold fuzzySearch
  rw [if_neg hq]
  unfold fuzzyRanked
  constructor
  · intro hmem
    obtain ⟨e, he, rfl⟩ := List.mem_map.1 hmem
    rw [List.mem_insertionSort] at he
    rw [List.mem_filter] at he
    obtain ⟨hes, het⟩ := he
    obtain ⟨hrec, hscore⟩ := mem_scoredEntries hes
    rw [decide_eq_true_eq] at het
    exact ⟨hrec, hscore ▸ het⟩
  · rintro ⟨hrec, hscore⟩
    have hrec2 : r ∈ (scoredEntries records (normalizeText q) fields).map (fun e => e.2.1) := by
      rw [scoredEntries_proj]; exact hrec
    obtain ⟨e, he, rfl⟩ := List.mem_map.1 hrec2
    have hval := (mem_scoredEntries he).2
    refine List.mem_map.2 ⟨e, ?_, rfl⟩
    rw [List.mem_insertionSort, List.mem_filter]
    exact ⟨he, by rw [decide_eq_true_eq, hval]; exact hscore⟩

theorem recordScore_eq_zero {nq : Str} {fields : List Str} {r : SRecord}
    (h : ∀ f ∈ fields, fieldScore nq r f = 0) :
    recordScore nq fields r = 0 := by
  unfold recordScore
  induction fields with
  | nil => rfl
  | cons f fs ih =>
    rw [List.map_cons, List.foldr_cons, h f (List.mem_cons_self f fs),
      ih (fun g hg => h g (List.mem_cons_of_mem f hg))]
    exact max_self 0

theorem fuzzyRanked_idx_nodup (records : List SRecord) (q : Str)
    (fields : List Str) (t : ℚ) :
    ((fuzzyRanked records q fields t).map (fun e => e.1)).Nodup := by
  unfold fuzzyRanked
  set kept := (scoredEntries records (normalizeText q) fields).filter
    (fun e => t ≤ e.2.2) with hkept
  have hsub : kept.Sublist (scoredEntries records (normalizeText q) fields) :=
    List.filter_sublist _
  have hmapsub := hsub.map (fun e : RankEntry => e.1)
  have hproj : (scoredEntries records (normalizeText q) fields).map
      (fun e : RankEntry => e.1) = List.range records.length := by
    unfold scoredEntries
    rw [List.map_map]
    exact List.enum_map_fst records
  rw [hproj] at hmapsub
  have hkeptnodup : (kept.map (fun e : RankEntry => e.1)).Nodup :=
    (List.nodup_range records.length).sublist hmapsub
  have hperm := (List.perm_insertionSort rankRel kept).map (fun e : RankEntry => e.1)
  exact hperm.symm.nodup hkeptnodup

theorem fuzzyRanked_mem_spec {records : List SRecord} {q : Str}
    {fields : List Str} {t : ℚ} {e : RankEntry}
    (he : e ∈ fuzzyRanked records q fields t) :
    records[e.1]? = some e.2.1 ∧
      e.2.2 = recordScore (normalizeText q) fields e.2.1 ∧ t ≤ e.2.2 := by
  unfold fuzzyRanked at he
  rw [List.mem_insertionSort, List.mem_filter] at he
  obtain ⟨hes, het⟩ := he
  rw [decide_eq_true_eq] at het
  unfold scoredEntries at hes
  obtain ⟨p, hp, rfl⟩ := List.mem_map.1 hes
  have : (p.1, p.2) ∈ records.enum := hp
  rw [List.mk_mem_enum_iff_getElem?] at this
  exact ⟨this, rfl, het⟩

theorem fuzzyRanked_pairwise (records : List SRecord) (q : Str)
    (fields : List Str) (t : ℚ) :
    (fuzzyRanked records q fields t).Pairwise
      (fun a b => b.2.2 ≤ a.2.2 ∧ (a.2.2 = b.2.2 → a.1 < b.1)) := by
  have hsorted : (fuzzyRanked records q fields t).Pairwise rankRel := by
    unfold fuzzyRanked
    exact List.sorted_insertionSort rankRel _
  have hnodup := fuzzyRanked_idx_nodup records q fields t
  rw [List.nodup_iff_sublist] at hnodup
  have hne : (fuzzyRanked records q fields t).Pairwise
      (fun a b : RankEntry => a.1 ≠ b.1) := by
    have := fuzzyRanked_idx_nodup records q fields t
    rw [List.Nodup, List.pairwise_map] at this
    exact this
  refine (hsorted.and hne).imp ?_
  rintro a b ⟨hr, hab⟩
  rcases hr with h1 | ⟨he2, hi⟩
  · exact ⟨le_of_lt h1, fun he => absurd (he ▸ h1) (lt_irrefl _)⟩
  · exact ⟨le_of_eq he2.symm, fun _ => lt_of_le_of_ne hi hab⟩

/-! Claim theorems -/

/-- Claim C1: for every record sequence, field list and threshold, the
fuzzy filter applied to the empty-string query returns the input
records unchanged — same elements, same order. -/
theorem spec_c1_empty_query_identity (records : List SRecord)
    (fields : List Str) (t : ℚ) :
    fuzzySearch records [] fields t = records := by
  unfold fuzzySearch
  rw [if_pos (by decide : normalizeText [] = [])]

/-- Claim C2: for a query that is non-empty after normalisation, a
record's overall score is the maximum (a fold of `max`, not a sum or
average) of its per-field scores, and a record is in the filter's
result exactly when it is an input record whose overall score reaches
the threshold. -/
theorem spec_c2_max_score_threshold (records : List SRecord) (q : Str)
    (fields : List Str) (t : ℚ) (r : SRecord)
    (hq : normalizeText q ≠ []) :
    recordScore (normalizeText q) fields r =
      (fields.map (fieldScore (normalizeText q) r)).foldr max 0 ∧
    (r ∈ fuzzySearch records q fields t ↔
      r ∈ records ∧ t ≤ recordScore (normalizeText q) fields r) :=
  ⟨rfl, mem_fuzzySearch_iff hq r⟩

/-- Witness for C2 at a concrete input. -/
theorem spec_c2_witness :
    normalizeText (String.toList "hi") ≠ [] ∧
    (recordScore (normalizeText (String.toList "hi")) [String.toList "t"]
        [(String.toList "t", Value.text (String.toList "hi"))] =
      (([String.toList "t"]).map
          (fieldScore (normalizeText (String.toList "hi"))
            [(String.toList "t", Value.text (String.toList "hi"))])).foldr max 0 ∧
    ([(String.toList "t", Value.text (String.toList "hi"))] ∈
        fuzzySearch [[(String.toList "t", Value.text (String.toList "hi"))]]
          (String.toList "hi") [String.toList "t"] 1 ↔
      [(String.toList "t", Value.text (String.toList "hi"))] ∈
          [[(String.toList "t", Value.text (String.toList "hi"))]] ∧
        (1 : ℚ) ≤ recordScore (normalizeText (String.toList "hi"))
          [String.toList "t"]
          [(String.toList "t", Value.text (String.toList "hi"))])) :=
  ⟨by decide,
    spec_c2_max_score_threshold
      [[(String.toList "t", Value.text (String.toList "hi"))]]
      (String.toList "hi") [String.toList "t"] 1
      [(String.toList "t", Value.text (String.toList "hi"))] (by decide)⟩

/-- Claim C3: for a query that is non-empty after normalisation, the
ranked output is pairwise ordered by descending overall score, entries
with equal scores keep strictly increasing input positions (stability),
every ranked entry carries the record found at its input position
together with that record's overall score, and the filter's output is
exactly the ranked entries' records. -/
theorem spec_c3_sorted_stable (records : List SRecord) (q : Str)
    (fields : List Str) (t : ℚ) (hq : normalizeText q ≠ []) :
    (fuzzyRanked records q fields t).Pairwise
      (fun a b => b.2.2 ≤ a.2.2 ∧ (a.2.2 = b.2.2 → a.1 < b.1)) ∧
    (∀ e ∈ fuzzyRanked records q fields t,
      records[e.1]? = some e.2.1 ∧
        e.2.2 = recordScore (normalizeText q) fields e.2.1) ∧
    fuzzySearch records q fields t =
      (fuzzyRanked records q fields t).map (fun e => e.2.1) := by
  refine ⟨fuzzyRanked_pairwise records q fields t,
    fun e he => ⟨(fuzzyRanked_mem_spec he).1, (fuzzyRanked_mem_spec he).2.1⟩, ?_⟩
  unfold fuzzySearch
  rw [if_neg hq]

/-- Witness for C3 at a concrete input with a tie. -/
theorem spec_c3_witness :
    normalizeText (String.toList "a") ≠ [] ∧
    ((fuzzyRanked [[(String.toList "t", Value.text (String.toList "ax"))],
        [(String.toList "t", Value.text (String.toList "ay"))]]
        (String.toList "a") [String.toList "t"] 0).Pairwise
      (fun a b => b.2.2 ≤ a.2.2 ∧ (a.2.2 = b.2.2 → a.1 < b.1)) ∧
    (∀ e ∈ fuzzyRanked [[(String.toList "t", Value.text (String.toList "ax"))],
        [(String.toList "t", Value.text (String.toList "ay"))]]
        (String.toList "a") [String.toList "t"] 0,
      ([[(String.toList "t", Value.text (String.toList "ax"))],
        [(String.toList "t", Value.text (String.toList "ay"))]])[e.1]? = some e.2.1 ∧
        e.2.2 = recordScore (normalizeText (String.toList "a"))
          [String.toList "t"] e.2.1) ∧
    fuzzySearch [[(String.toList "t", Value.text (String.toList "ax"))],
        [(String.toList "t", Value.text (String.toList "ay"))]]
        (String.toList "a") [String.toList "t"] 0 =
      (fuzzyRanked [[(String.toList "t", Value.text (String.toList "ax"))],
        [(String.toList "t", Value.text (String.toList "ay"))]]
        (String.toList "a") [String.toList "t"] 0).map (fun e => e.2.1)) :=
  ⟨by decide,
    spec_c3_sorted_stable
      [[(String.toList "t", Value.text (String.toList "ax"))],
        [(String.toList "t", Value.text (String.toList "ay"))]]
      (String.toList "a") [String.toList "t"] 0 (by decide)⟩

/-- Claim C4: for fixed records, query and fields, the result set is
antitone in the threshold — every record returned at the higher
threshold is also returned at the lower one. -/
theorem spec_c4_threshold_antitone (records : List SRecord) (q : Str)
    (fields : List Str) (t1 t2 : ℚ) (h12 : t1 ≤ t2) (r : SRecord)
    (hr : r ∈ fuzzySearch records q fields t2) :
    r ∈ fuzzySearch records q fields t1 := by
  by_cases hq : normalizeText q = []
  · unfold fuzzySearch at hr ⊢
    rw [if_pos hq] at hr ⊢
    exact hr
  · obtain ⟨hmem, hle⟩ := (mem_fuzzySearch_iff hq r).1 hr
    exact (mem_fuzzySearch_iff hq r).2 ⟨hmem, le_trans h12 hle⟩

/-- Witness for C4 at a concrete input. -/
theorem spec_c4_witness :
    (0 : ℚ) ≤ 1 ∧
    [(String.toList "t", Value.text (String.toList "a"))] ∈
        fuzzySearch [[(String.toList "t", Value.text (String.toList "a"))]]
          (String.toList "a") [String.toList "t"] 1 ∧
    [(String.toList "t", Value.text (String.toList "a"))] ∈
        fuzzySearch [[(String.toList "t", Value.text (String.toList "a"))]]
          (String.toList "a") [String.toList "t"] 0 :=
  ⟨by decide, by decide,
    spec_c4_threshold_antitone
      [[(String.toList "t", Value.text (String.toList "a"))]]
      (String.toList "a") [String.toList "t"] 0 1 (by decide)
      [(String.toList "t", Value.text (String.toList "a"))] (by decide)⟩

/-- Claim C6: the fuzzy filter is case-insensitive in the query — two
queries with the same lowercasing yield identical results. -/
theorem spec_c6_case_insensitive (records : List SRecord)
    (fields : List Str) (t : ℚ) (q1 q2 : Str)
    (h : q1.map Char.toLower = q2.map Char.toLower) :
    fuzzySearch records q1 fields t = fuzzySearch records q2 fields t := by
  have hn : normalizeText q1 = normalizeText q2 := by
    unfold normalizeText
    rw [h]
  unfold fuzzySearch fuzzyRanked
  rw [hn]

/-- Witness for C6 at the spec's concrete queries. -/
theorem spec_c6_witness :
    (String.toList "HINDI").map Char.toLower =
      (String.toList "hindi").map Char.toLower ∧
    fuzzySearch [[(String.toList "t", Value.text (String.toList "hindi"))]]
        (String.toList "HINDI") [String.toList "t"] 0 =
      fuzzySearch [[(String.toList "t", Value.text (String.toList "hindi"))]]
        (String.toList "hindi") [String.toList "t"] 0 :=
  ⟨by decide,
    spec_c6_case_insensitive
      [[(String.toList "t", Value.text (String.toList "hindi"))]]
      [String.toList "t"] 0 (String.toList "HINDI") (String.toList "hindi")
      (by decide)⟩

/-- Claim C7: the filter is a total function by construction, and a
field whose value is of unexpected (non-text) type or missing is
skipped with score 0 rather than causing a failure. -/
theorem spec_c7_non_text_skipped (nq : Str) (r : SRecord) (f : Str)
    (h : isTextValue (r.lookup f) = false) :
    fieldScore nq r f = 0 := by
  have hget : getFieldText r f = [] := by
    unfold getFieldText
    cases hlk : r.lookup f with
    | none => rfl
    | some v =>
      cases v with
      | text s =>
        rw [hlk] at h
        exact absurd h (by simp [isTextValue])
      | num n => rfl
      | boolV b => rfl
      | absent => rfl
  unfold fieldScore
  rw [hget]
  rw [if_pos (by decide : normalizeText [] = [])]

/-- Witness for C7 at a concrete non-text field. -/
theorem spec_c7_witness :
    isTextValue (([(String.toList "n", Value.num 3)] : SRecord).lookup
      (String.toList "n")) = false ∧
    fieldScore (String.toList "x") [(String.toList "n", Value.num 3)]
      (String.toList "n") = 0 :=
  ⟨by decide,
    spec_c7_non_text_skipped (String.toList "x")
      [(String.toList "n", Value.num 3)] (String.toList "n") (by decide)⟩

/-- Counterexample to claim C5 as stated: at threshold 0 — a legal
threshold within the stated `[0, 1]` domain — a record none of whose
selected fields carries any text is nevertheless returned for the
non-empty query "x", because its overall score 0 satisfies `0 ≤ 0`. -/
theorem spec_c5_counterexample :
    fuzzySearch [([] : SRecord)] (String.toList "x") [String.toList "title"] 0 =
      [([] : SRecord)] := by decide

/-- Claim C5 amended: for every non-empty (after normalisation) query
and every strictly positive threshold, a record whose selected fields
are all null, absent or empty of text is never in the result. -/
theorem spec_c5_no_text_excluded (records : List SRecord) (q : Str)
    (fields : List Str) (t : ℚ) (r : SRecord) (hq : normalizeText q ≠ [])
    (ht : 0 < t)
    (hall : ∀ f ∈ fields, normalizeText (getFieldText r f) = []) :
    r ∉ fuzzySearch records q fields t := by
  intro hmem
  obtain ⟨-, hle⟩ := (mem_fuzzySearch_iff hq r).1 hmem
  have hz : recordScore (normalizeText q) fields r = 0 :=
    recordScore_eq_zero (fun f hf => by
      unfold fieldScore
      rw [if_pos (hall f hf)])
  rw [hz] at hle
  exact absurd (lt_of_lt_of_le ht hle) (lt_irrefl 0)

/-- Witness for the amended C5 at a concrete input. -/
theorem spec_c5_witness :
    normalizeText (String.toList "x") ≠ [] ∧ (0 : ℚ) < 1 ∧
    (∀ f ∈ [String.toList "title"],
      normalizeText (getFieldText ([] : SRecord) f) = []) ∧
    ([] : SRecord) ∉ fuzzySearch [([] : SRecord)] (String.toList "x")
      [String.toList "title"] 1 :=
  ⟨by decide, by decide, by decide,
    spec_c5_no_text_excluded [([] : SRecord)] (String.toList "x")
      [String.toList "title"] 1 ([] : SRecord) (by decide) (by decide)
      (by decide)⟩

/-- Helper for C8: the indexed/pending filters partition the list. -/
theorem length_filter_indexed_partition (l : List Manual) :
    (l.filter (fun m => m.indexed)).length +
      (l.filter (fun m => !m.indexed)).length = l.length := by
  induction l with
  | nil => rfl
  | cons m ms ih =>
    cases hm : m.indexed <;> simp [List.filter_cons, hm] <;> omega

/-- Helper for C8: the fold of `reduce` equals the sum of page counts. -/
theorem foldl_add_getD (l : List Manual) :
    ∀ n : Nat, l.foldl (fun sum m => sum + m.total_pages.getD 0) n =
      n + (l.map (fun m => m.total_pages.getD 0)).sum := by
  induction l with
  | nil => intro n; simp
  | cons m ms ih =>
    intro n
    rw [List.foldl_cons, ih, List.map_cons, List.sum_cons]
    omega

/-- Claim C8: the stat counters of the admin manuals page partition the
list — indexed plus pending equals total — and `totalPages` is the sum
of `total_pages` over all manuals, taking 0 for a missing count. -/
theorem spec_c8_stats_partition (manuals : List Manual) :
    statsIndexed manuals + statsPending manuals = statsTotal manuals ∧
    statsTotalPages manuals =
      (manuals.map (fun m => m.total_pages.getD 0)).sum := by
  constructor
  · exact length_filter_indexed_partition manuals
  · unfold statsTotalPages
    rw [foldl_add_getD manuals 0]
    omega

/-- Claim C9: the approval-rate display divides only behind a
positivity guard — a dashboard with zero total modules displays 0, and
only with strictly positive total modules is the rounded percentage
computed. -/
theorem spec_c9_approval_rate_guard (d : DashboardData) :
    (d.total_modules = 0 → approvalRate d = 0) ∧
    (0 < d.total_modules →
      approvalRate d =
        jsRound ((d.approved_modules : ℚ) / (d.total_modules : ℚ) * 100)) := by
  constructor
  · intro h
    unfold approvalRate
    rw [if_neg (by omega)]
  · intro h
    unfold approvalRate
    rw [if_pos h]

/-- Witness for C9 at concrete dashboards. -/
theorem spec_c9_witness :
    approvalRate ⟨7, 0⟩ = 0 ∧ (0 < 4 ∧
      approvalRate ⟨3, 4⟩ = jsRound (((3 : Nat) : ℚ) / ((4 : Nat) : ℚ) * 100)) :=
  ⟨(spec_c9_approval_rate_guard ⟨7, 0⟩).1 rfl,
    by decide,
    (spec_c9_approval_rate_guard ⟨3, 4⟩).2 (by decide)⟩

/-- Counterexample to claim C10 as stated: for the PDF-typed file named
`a.pdfb.pdf` with an empty title field, the code sets the title by
removing the FIRST occurrence of the substring `.pdf` — yielding
`ab.pdf` — which differs from the filename with its `.pdf` suffix
removed, `a.pdfb`. -/
theorem spec_c10_counterexample :
    (handleFileSelect ⟨none, [], none⟩
        (some ⟨String.toList "a.pdfb.pdf", appPdf⟩)).uploadTitle =
      String.toList "ab.pdf" ∧
    removePdfSuffix (String.toList "a.pdfb.pdf") = String.toList "a.pdfb" ∧
    (handleFileSelect ⟨none, [], none⟩
        (some ⟨String.toList "a.pdfb.pdf", appPdf⟩)).uploadTitle ≠
      removePdfSuffix (String.toList "a.pdfb.pdf") :=
  ⟨by decide, by decide, by decide⟩

/-- Claim C10 amended: `handleFileSelect` accepts exactly a present
file of MIME type `application/pdf`, storing it and — when the title is
empty — setting the title to the filename with the first occurrence of
the substring `.pdf` removed (for ordinary names ending in `.pdf` this
is the suffix removal); any other input only raises the error alert,
leaving the selected file and title unchanged. -/
theorem spec_c10_file_select (st : PageState) (file : Option UpFile) :
    (∀ f, file = some f → f.type = appPdf →
      handleFileSelect st file =
        { st with
          selectedFile := some f,
          uploadTitle :=
            if st.uploadTitle = [] then
              replaceFirst (String.toList ".pdf") f.name
            else st.uploadTitle }) ∧
    ((file = none ∨ ∃ f, file = some f ∧ f.type ≠ appPdf) →
      (handleFileSelect st file).selectedFile = st.selectedFile ∧
      (handleFileSelect st file).uploadTitle = st.uploadTitle ∧
      (handleFileSelect st file).alert = some pdfError) := by
  constructor
  · rintro f rfl hty
    simp only [handleFileSelect]
    rw [if_pos hty]
  · rintro (rfl | ⟨f, rfl, hty⟩)
    · exact ⟨rfl, rfl, rfl⟩
    · simp only [handleFileSelect]
      rw [if_neg hty]
      exact ⟨rfl, rfl, rfl⟩

/-- Witness for the amended C10 at concrete inputs. -/
theorem spec_c10_witness :
    handleFileSelect ⟨none, [], none⟩ (some ⟨String.toList "x.pdf", appPdf⟩) =
      { (⟨none, [], none⟩ : PageState) with
        selectedFile := some ⟨String.toList "x.pdf", appPdf⟩,
        uploadTitle :=
          if ([] : Str) = [] then
            replaceFirst (String.toList ".pdf") (String.toList "x.pdf")
          else [] } ∧
    (handleFileSelect ⟨none, [], none⟩ none).alert = some pdfError :=
  ⟨(spec_c10_file_select ⟨none, [], none⟩
        (some ⟨String.toList "x.pdf", appPdf⟩)).1
      ⟨String.toList "x.pdf", appPdf⟩ rfl rfl,
    ((spec_c10_file_select ⟨none, [], none⟩ none).2 (Or.inl rfl)).2.2⟩
